import Mathlib

/-!
Verification development for `mace/tools/cuda_tools.py`: the CUDA graph-surgery
transformation that rewrites a trained MACE model for accelerated inference.

Modelling conventions.
Tensors are shallow-embedded as a shape list together with a flat row-major
data list over `ℚ` (exact arithmetic stands in for floating point; every
property proved here is independent of rounding) and a dtype tag.
External accelerated kernels (`mace_ops` Linear, InvariantMessagePassingTP,
CUDAContraction) are opaque: they appear either as recorded configuration
values (for the structural rewrite) or as arbitrary function-valued fields
(for the rewritten forward passes), exactly as the source treats them.
The scalar `num_channels_in ** 0.5` computed by the source in floating point
is threaded through as an arbitrary parameter `sq : Nat → ℚ`; every statement
below holds for all values of that parameter, hence in particular for the
square root. Python strings are embedded as `List Char`.
-/

/-- Numeric dtype tag of a torch tensor (the tool supports float32/float64). -/
inductive Dtype
  | float32
  | float64
deriving DecidableEq

/-- Shallow embedding of a torch tensor: shape, flat row-major data, dtype. -/
structure Tensor where
  shape : List Nat
  data : List ℚ
  dtype : Dtype
deriving DecidableEq

/-- The `.type(dtype)` cast: in exact arithmetic the values are unchanged. -/
def Tensor.typeCast (t : Tensor) (d : Dtype) : Tensor :=
  { t with dtype := d }

/-- Elementwise division of a tensor by a scalar (`tensor / scalar`). -/
def Tensor.divScalar (t : Tensor) (a : ℚ) : Tensor :=
  { t with data := t.data.map (fun v => v / a) }

/-- The `t.view(d0, -1, d2)` reshape: succeeds exactly when the element count
is a positive multiple of `d0 * d2`, inferring the middle dimension. -/
def Tensor.view3 (t : Tensor) (d0 d2 : Nat) : Option Tensor :=
  if 0 < d0 * d2 ∧ d0 * d2 ∣ t.data.length then
    some { shape := [d0, t.data.length / (d0 * d2), d2], data := t.data, dtype := t.dtype }
  else none

/-- The shape produced by `tensor.squeeze()` with no argument: every size-1
dimension is removed, wherever it occurs. -/
def squeezeShape (s : List Nat) : List Nat :=
  s.filter (fun d => d != 1)

/-- Cast of a 64-bit integer to a 32-bit integer (`.int()` in torch):
two-complement wraparound into `[-2^31, 2^31)`. -/
def int32 (x : Int) : Int :=
  (x + 2 ^ 31) % 2 ^ 32 - 2 ^ 31

/-- Helper for `argmaxLast`: fold keeping the index of the first maximum. -/
def argmaxAux : List ℚ → Nat → Nat → ℚ → Nat
  | [], _, best, _ => best
  | a :: rest, i, best, bestv =>
    if bestv < a then argmaxAux rest (i + 1) i a
    else argmaxAux rest (i + 1) best bestv

/-- `row.argmax()`: index of the first occurrence of the maximal entry of a
row (torch convention); 0 on an empty row. -/
def argmaxLast (row : List ℚ) : Nat :=
  match row with
  | [] => 0
  | a :: rest => argmaxAux rest 1 0 a

/-- Boolean test that `sub` is a prefix of the second list. -/
def isPrefixL : List Char → List Char → Bool
  | [], _ => true
  | _ :: _, [] => false
  | a :: as, b :: bs => a == b && isPrefixL as bs

/-- Boolean substring containment, the semantics of the Python `in` operator
on strings. -/
def containsSubL (sub : List Char) : List Char → Bool
  | [] => isPrefixL sub []
  | b :: bs => isPrefixL sub (b :: bs) || containsSubL sub bs

/-- The marker the rewriter looks for in an interaction block class name. -/
def residualMarker : List Char := ("Residual").toList

/-- One entry of an e3nn `Irreps`: a multiplicity and an opaque id for the
irreducible representation. -/
structure IrrepEntry where
  mul : Nat
  ir : Nat
deriving DecidableEq

/-- `irreps.num_irreps`: the total multiplicity. -/
def irrepsNumIrreps (I : List IrrepEntry) : Nat :=
  (I.map (fun e => e.mul)).sum

/-- `o3.Irreps([irrep.ir for irrep in irreps_in])`: multiplicities stripped,
one copy of each rotational part. -/
def couplingIrreps (I : List IrrepEntry) : List IrrepEntry :=
  I.map (fun e => { mul := 1, ir := e.ir })

/-- The data of a generic e3nn `o3.Linear` layer that the rewrite reads:
its input/output irreps, its instruction list (opaque id), and the flat
weight data tensor. -/
structure LinearE3nn where
  irreps_in : List IrrepEntry
  irreps_out : List IrrepEntry
  instructions : Nat
  weight : List ℚ
deriving DecidableEq

/-- Split a flat list into `r` consecutive rows of length `c`
(row-major order, as torch `reshape(r, c)` lays the data out). -/
def chunkRows (c : Nat) : Nat → List ℚ → List (List ℚ)
  | 0, _ => []
  | Nat.succ r, l => l.take c :: chunkRows c r (l.drop c)

/-- Torch `reshape(r, c)` on a flat tensor: defined exactly when the element
count equals `r * c`, otherwise a runtime error (`none`). -/
def reshape2 (flat : List ℚ) (r c : Nat) : Option (List (List ℚ)) :=
  if flat.length = r * c then some (chunkRows c r flat) else none

/-- Matrix product of `x : [batch, r]` with `W : [r, c]` (`torch.matmul`). -/
def matmul (x W : List (List ℚ)) : List (List ℚ) :=
  x.map (fun row =>
    (List.range (W.headD []).length).map (fun j =>
      ((List.range W.length).map (fun i => row.getD i 0 * (W.getD i []).getD j 0)).sum))

/-- The `linear_matmul` replacement module: it stores only the precomputed
normalized weight matrix. -/
structure linear_matmul where
  weights : List (List ℚ)
deriving DecidableEq

/-- `linear_matmul.__init__`: reads the declared multiplicities, reshapes the
flat weight data to `[num_channels_in, num_channels_out]` (a structural error
when the element count does not match) and divides by `num_channels_in ** 0.5`
(the parameter `sq num_channels_in`). -/
def linear_matmul.init (sq : Nat → ℚ) (linear_e3nn : LinearE3nn) : Option linear_matmul :=
  let num_channels_in := irrepsNumIrreps linear_e3nn.irreps_in
  let num_channels_out := irrepsNumIrreps linear_e3nn.irreps_out
  (reshape2 linear_e3nn.weight num_channels_in num_channels_out).map
    (fun W => { weights := W.map (fun row => row.map (fun a => a / sq num_channels_in)) })

/-- `linear_matmul.forward`: `torch.matmul(x, self.weights)`. -/
def linear_matmul.forward (self : linear_matmul) (x : List (List ℚ)) : List (List ℚ) :=
  matmul x self.weights

/-- The configuration recorded by the accelerated `Linear` kernel constructor. -/
structure CUDALinear where
  irreps_in : List IrrepEntry
  irreps_out : List IrrepEntry
  instructions : Nat
  weight : List ℚ
deriving DecidableEq

/-- `linear_to_cuda`: builds the accelerated Linear from the generic layer
fields `irreps_in`, `irreps_out`, `instructions`, `weight`. -/
def linear_to_cuda (linear : LinearE3nn) : CUDALinear :=
  { irreps_in := linear.irreps_in, irreps_out := linear.irreps_out,
    instructions := linear.instructions, weight := linear.weight }

/-- The `SymmetricContractionWrapper` module: wraps the opaque accelerated
contraction kernel, here an arbitrary function of the node features and the
per-node integer type selector. -/
structure SymmetricContractionWrapper where
  symmetric_contractions : Tensor → List Int → Tensor

/-- `SymmetricContractionWrapper.forward`: `y.argmax(dim=-1).int()` then
`self.symmetric_contractions(x, y).squeeze()`. The one-hot input `y` is
embedded as one row of class scores per node. -/
def SymmetricContractionWrapper.forward (self : SymmetricContractionWrapper)
    (x : Tensor) (y : List (List ℚ)) : Tensor :=
  let yIdx := y.map (fun row => int32 (Int.ofNat (argmaxLast row)))
  let r := self.symmetric_contractions x yIdx
  { shape := squeezeShape r.shape, data := r.data, dtype := r.dtype }

/-- Runtime view of a rewritten interaction block, as the two patched forward
functions see it (`self`): the callable submodules are opaque functions, and
`avg_num_neighbors` is the precomputed scalar attribute. -/
structure InteractionModule where
  skip_tp : Tensor → Tensor → Tensor
  linear_up : Tensor → Tensor
  conv_tp_weights : Tensor → Tensor
  tp_calculate_first_occurences : List Int → Nat → List Int → List Int
  tp_forward : Tensor → Tensor → Tensor → List Int → List Int → List Int → Tensor
  linear : Tensor → Tensor
  avg_num_neighbors : ℚ

/-- `invariant_residual_interaction_forward`: the Residual variant bound by
the rewriter. Computes the self connection from the incoming node features
before the uplift linear, then the message, and returns the pair. -/
def invariant_residual_interaction_forward (self : InteractionModule)
    (node_attrs node_feats edge_attrs edge_feats : Tensor)
    (edge_index : List (List Int)) : Option (Tensor × Option Tensor) :=
  let sender := (edge_index.getD 0 []).map int32
  let receiver := (edge_index.getD 1 []).map int32
  let num_nodes := node_feats.shape.headD 0
  let sc := self.skip_tp node_feats node_attrs
  let node_feats2 := self.linear_up node_feats
  let tp_weights := self.conv_tp_weights edge_feats
  let first_occurences := self.tp_calculate_first_occurences receiver num_nodes []
  match tp_weights.view3 (tp_weights.shape.headD 0) (node_feats2.shape.getLastD 0) with
  | none => none
  | some w =>
    let message := self.tp_forward node_feats2 edge_attrs w sender receiver first_occurences
    some ((self.linear message).divScalar self.avg_num_neighbors, some sc)

/-- `invariant_interaction_forward`: the Standard variant bound by the
rewriter; identical message pipeline, no self connection (`None`). -/
def invariant_interaction_forward (self : InteractionModule)
    (node_attrs node_feats edge_attrs edge_feats : Tensor)
    (edge_index : List (List Int)) : Option (Tensor × Option Tensor) :=
  let sender := (edge_index.getD 0 []).map int32
  let receiver := (edge_index.getD 1 []).map int32
  let num_nodes := node_feats.shape.headD 0
  let node_feats2 := self.linear_up node_feats
  let tp_weights := self.conv_tp_weights edge_feats
  let first_occurences := self.tp_calculate_first_occurences receiver num_nodes []
  match tp_weights.view3 (tp_weights.shape.headD 0) (node_feats2.shape.getLastD 0) with
  | none => none
  | some w =>
    let message := self.tp_forward node_feats2 edge_attrs w sender receiver first_occurences
    some ((self.linear message).divScalar self.avg_num_neighbors, none)

/-- The two forward variants the Interaction Rewriter can bind. -/
inductive ForwardKind
  | residual
  | standard
deriving DecidableEq

/-- Variant selection, line 77 of the source: the Residual forward is bound
exactly when the class name of the block contains the marker. -/
def selectForwardKind (className : List Char) : ForwardKind :=
  if containsSubL residualMarker className then ForwardKind.residual
  else ForwardKind.standard

/-- What an interaction or product linear slot can hold: the generic e3nn
layer, the `linear_matmul` replacement, or the accelerated CUDA Linear. -/
inductive LinearSlot
  | e3nn (l : LinearE3nn)
  | matmul (m : linear_matmul)
  | cuda (c : CUDALinear)
deriving DecidableEq

/-- What the tensor-product slot of an interaction block can hold: the
original module (opaque id) or a fresh `InvariantMessagePassingTP()`. -/
inductive TPSlot
  | orig (id : Nat)
  | invariantTP
deriving DecidableEq

/-- One contraction of the original symmetric-contraction layer: the
max-body-order weight tensor and the list of lower-order weight tensors. -/
structure ContractionWeights where
  weights_max : Tensor
  weights : List Tensor
deriving DecidableEq

/-- The original `symmetric_contractions` layer of a product block. -/
structure SymmetricContractionsOrig where
  contractions : List ContractionWeights
  irreps_in : List IrrepEntry
  irreps_out : List IrrepEntry
deriving DecidableEq

/-- The configuration recorded by the accelerated `CUDAContraction`
constructor: coupling irreps, output irreps, the extracted weight mapping
(per contraction index, an assignment of body order to weight tensor, in
assignment order), the thread tiling, and the dtype. -/
structure CUDAContraction where
  coupling_irreps : List IrrepEntry
  irreps_out : List IrrepEntry
  all_weights : List (List (Nat × Tensor))
  nthreadX : Nat
  nthreadY : Nat
  nthreadZ : Nat
  dtype : Dtype
deriving DecidableEq

/-- What the symmetric-contraction slot of a product block can hold. -/
inductive ContractionSlot
  | orig (s : SymmetricContractionsOrig)
  | wrapper (c : CUDAContraction)
deriving DecidableEq

/-- Structural view of an interaction block as the rewriter sees it.
`skip_tp` is an opaque module reference (never touched by the rewrite);
`forwardBinding` records the monkey-patched forward (`none` = original). -/
structure InteractionBlockS where
  className : List Char
  linear_up : LinearSlot
  linear : LinearSlot
  tp : TPSlot
  skip_tp : Nat
  forwardBinding : Option ForwardKind
deriving DecidableEq

/-- Structural view of a product block. -/
structure ProductBlock where
  symmetric_contractions : ContractionSlot
  linear : LinearSlot
deriving DecidableEq

/-- Configuration of the spherical-harmonics front end. -/
structure SHConfig where
  sh_lmax : Nat
  normalize : Bool
  normalization : List Char
  backend : List Char
deriving DecidableEq

/-- A model parameter: its gradient-tracking flag and dtype. -/
structure Param where
  requires_grad : Bool
  dtype : Dtype
deriving DecidableEq

/-- Structural view of a MACE model: the fields `optimize_cuda_mace` reads or
mutates. `objId` stands for the Python object identity of the model, which no
rewrite step changes. -/
structure MACEModel where
  objId : Nat
  params : List Param
  num_interactions : Nat
  node_embedding_num_irreps : Nat
  spherical_harmonics : SHConfig
  interactions : List InteractionBlockS
  products : List ProductBlock
deriving DecidableEq

/-- Lines 60-61: `param.requires_grad = False` for every parameter. -/
def freezeParams (m : MACEModel) : MACEModel :=
  { m with params := m.params.map (fun p => { p with requires_grad := false }) }

/-- `get_model_dtype`: dtype of the first parameter (`none` when there is no
parameter, where the source raises). -/
def get_model_dtype (model : MACEModel) : Option Dtype :=
  model.params.head?.map (fun p => p.dtype)

/-- Lines 74-84 of the loop body: replace the uplift linear by
`linear_matmul`, the post-message linear by the CUDA Linear, the tensor
product by a fresh `InvariantMessagePassingTP`, and bind the forward variant
selected from the class name. Fails when a slot does not hold the generic
e3nn layer or the weight reshape fails. -/
def rewriteInteraction (sq : Nat → ℚ) (b : InteractionBlockS) : Option InteractionBlockS :=
  match b.linear_up with
  | LinearSlot.e3nn lu =>
    match linear_matmul.init sq lu with
    | none => none
    | some lm =>
      match b.linear with
      | LinearSlot.e3nn l2 =>
        some { b with linear_up := LinearSlot.matmul lm,
                      linear := LinearSlot.cuda (linear_to_cuda l2),
                      tp := TPSlot.invariantTP,
                      forwardBinding := some (selectForwardKind b.className) }
      | _ => none
  | _ => none

/-- Lines 89-97 for one contraction `j`: body order 3 gets `weights_max`,
body order 2 gets `weights[0]`, body order 1 gets `weights[1]`, each detached,
cloned and cast to the model dtype (detach/clone are the identity in this
pure embedding). `none` when `weights` has fewer than two entries. -/
def extractContraction (d : Dtype) (c : ContractionWeights) : Option (List (Nat × Tensor)) :=
  match c.weights[0]? with
  | none => none
  | some w0 =>
    match c.weights[1]? with
    | none => none
    | some w1 =>
      some [(3, c.weights_max.typeCast d), (2, w0.typeCast d), (1, w1.typeCast d)]

/-- Lines 86-97: the `all_weights` mapping over all contraction indices. -/
def extractAllWeights (d : Dtype) : List ContractionWeights → Option (List (List (Nat × Tensor)))
  | [] => some []
  | c :: rest =>
    match extractContraction d c with
    | none => none
    | some e =>
      match extractAllWeights d rest with
      | none => none
      | some es => some (e :: es)

/-- Lines 85-113 of the loop body: extract the weights of the original
symmetric contraction, build the `CUDAContraction` (tiling 32x4x1, coupling
irreps with multiplicities stripped), install it behind the wrapper, and
replace the trailing linear of the product block by `linear_matmul`. -/
def rewriteProduct (d : Dtype) (sq : Nat → ℚ) (p : ProductBlock) : Option ProductBlock :=
  match p.symmetric_contractions with
  | ContractionSlot.orig sc =>
    match extractAllWeights d sc.contractions with
    | none => none
    | some aw =>
      match p.linear with
      | LinearSlot.e3nn l =>
        match linear_matmul.init sq l with
        | none => none
        | some lm =>
          some { symmetric_contractions := ContractionSlot.wrapper
                   { coupling_irreps := couplingIrreps sc.irreps_in,
                     irreps_out := sc.irreps_out,
                     all_weights := aw,
                     nthreadX := 32, nthreadY := 4, nthreadZ := 1, dtype := d },
                 linear := LinearSlot.matmul lm }
      | _ => none
  | _ => none

/-- One iteration of the rewrite loop (lines 73-113) at layer index `i`. -/
def layerStep (sq : Nat → ℚ) (d : Dtype) (acc : MACEModel) (i : Nat) : Option MACEModel :=
  match acc.interactions[i]? with
  | none => none
  | some ib =>
    match rewriteInteraction sq ib with
    | none => none
    | some ib2 =>
      match acc.products[i]? with
      | none => none
      | some pb =>
        match rewriteProduct d sq pb with
        | none => none
        | some pb2 =>
          some { acc with interactions := acc.interactions.set i ib2,
                          products := acc.products.set i pb2 }

/-- The rewrite loop `for i in range(n_layers)` over an explicit index list. -/
def rewriteLoop (sq : Nat → ℚ) (d : Dtype) : MACEModel → List Nat → Option MACEModel
  | m, [] => some m
  | m, i :: rest =>
    match layerStep sq d m i with
    | none => none
    | some m2 => rewriteLoop sq d m2 rest

/-- Lines 62-114: everything `optimize_cuda_mace` does after the parameter
freeze: read the model dtype, install the optimized spherical-harmonics front
end (degree 3, normalized, component convention, opt backend), read the
(unused) element count, and run the rewrite loop over all layers. -/
def optimizeFrozen (sq : Nat → ℚ) (m1 : MACEModel) : Option MACEModel :=
  match get_model_dtype m1 with
  | none => none
  | some dtype =>
    let n_layers := m1.num_interactions
    let m2 := { m1 with spherical_harmonics :=
      { sh_lmax := 3, normalize := true,
        normalization := ("component").toList, backend := ("opt").toList } }
    let _num_elements := m2.node_embedding_num_irreps
    rewriteLoop sq dtype m2 (List.range n_layers)

/-- `optimize_cuda_mace`: freeze every parameter first (lines 60-61), then
rewrite, returning the mutated model. -/
def optimize_cuda_mace (sq : Nat → ℚ) (model : MACEModel) : Option MACEModel :=
  optimizeFrozen sq (freezeParams model)

/-- An ase atoms object, as far as the benchmark fallback builds one: either
`build.bulk(symbol, lattice, a, cubic)` or a supercell repetition of it. -/
inductive Atoms
  | bulk (symbol : List Char) (lattice : List Char) (a : ℚ) (cubic : Bool)
  | repeat_ (base : Atoms) (nx ny nz : Nat)
deriving DecidableEq

/-- Lines 223-232 of `benchmark`: the input-loading step. The external
`ase.io.read` call is abstracted as its result `readResult`; on failure the
harness logs the unreadable file and substitutes a cubic diamond carbon cell
(a = 3.567) repeated 10x10x10, and proceeds either way. The second component
collects the log messages emitted on the fallback path. -/
def benchmarkLoadAtoms (readResult : Except (List Char) (List Atoms))
    (benchmark_file : List Char) : List Atoms × List (List Char) :=
  match readResult with
  | Except.ok atoms_list => (atoms_list, [])
  | Except.error _ =>
    let atoms := Atoms.bulk (("C").toList) (("diamond").toList) (3567 / 1000) true
    ([Atoms.repeat_ atoms 10 10 10], [("Could not read file ").toList ++ benchmark_file])

/-- Split a path at every slash, Python `path.split("/")` semantics. -/
def splitOnSlash : List Char → List (List Char)
  | [] => [[]]
  | c :: rest =>
    let r := splitOnSlash rest
    if c == '/' then [] :: r else (c :: r.headD []) :: r.tail

/-- Join path components with slashes, Python `"/".join(parts)` semantics. -/
def joinSlash : List (List Char) → List Char
  | [] => []
  | [x] => x
  | x :: y :: rest => x ++ '/' :: joinSlash (y :: rest)

/-- Lines 273-274 of `main`: the output path is the input path split at
slashes, last component dropped, rejoined, then a slash and the output name. -/
def model_opt_path (model output : List Char) : List Char :=
  joinSlash (splitOnSlash model).dropLast ++ ('/' :: output)

/-- Modelled from the spec: the output artifact is "saved alongside the input
under a caller-specified filename within the input's directory". The
directory containing the input is the part before the final slash; a bare
filename lives in the current directory, so the output is then the bare
output filename. -/
def specOutputPath (model output : List Char) : List Char :=
  let parts := splitOnSlash model
  if parts.length ≤ 1 then output
  else joinSlash parts.dropLast ++ ('/' :: output)

/-- Claim-side reading of `squeeze` under test in C2: remove only a trailing
singleton dimension, leaving every other dimension alone. -/
def removeTrailingSingleton (s : List Nat) : List Nat :=
  if s.getLast? = some 1 then s.dropLast else s

/-- Placeholder tensor used as a `getD` default in the concrete examples. -/
def tDefault : Tensor :=
  { shape := [], data := [], dtype := Dtype.float32 }

/-- Stand-in for the floating-point square root in concrete examples; the
theorems hold for every such function, so any concrete value serves. -/
def sqEx : Nat → ℚ := fun _ => 2

/-- Concrete generic linear layer: 2 input channels, 3 output channels,
6 weight entries. -/
def lC1 : LinearE3nn :=
  { irreps_in := [{ mul := 2, ir := 0 }], irreps_out := [{ mul := 3, ir := 0 }],
    instructions := 0, weight := [1, 2, 3, 4, 5, 6] }

/-- The reshaped weight matrix of `lC1`. -/
def WC1 : List (List ℚ) :=
  (reshape2 lC1.weight 2 3).getD []

/-- The `linear_matmul` built from `lC1`. -/
def LC1 : linear_matmul :=
  (linear_matmul.init sqEx lC1).getD { weights := [] }

/-- A concrete batch of one input row of width 2. -/
def xC1 : List (List ℚ) := [[1, 2]]

/-- A contraction wrapper whose kernel returns shape `[1, 2]`: a leading,
non-trailing singleton dimension. -/
def scwC2 : SymmetricContractionWrapper :=
  { symmetric_contractions := fun _ _ =>
      { shape := [1, 2], data := [0, 0], dtype := Dtype.float32 } }

/-- Concrete node features for the C2 counterexample. -/
def xC2 : Tensor := { shape := [1], data := [0], dtype := Dtype.float32 }

/-- Concrete one-node one-hot attribute rows for the C2 counterexample. -/
def yC2 : List (List ℚ) := [[1]]

/-- Concrete generic linear layer with a single channel in and out. -/
def lTiny : LinearE3nn :=
  { irreps_in := [{ mul := 1, ir := 0 }], irreps_out := [{ mul := 1, ir := 0 }],
    instructions := 0, weight := [1] }

/-- A residual-flavoured interaction block, all slots still generic. -/
def bC3 : InteractionBlockS :=
  { className := ("RealAgnosticResidualInteractionBlock").toList,
    linear_up := LinearSlot.e3nn lTiny, linear := LinearSlot.e3nn lTiny,
    tp := TPSlot.orig 0, skip_tp := 5, forwardBinding := none }

/-- The block `bC3` after the rewrite. -/
def bC3R : InteractionBlockS :=
  (rewriteInteraction sqEx bC3).getD bC3

/-- A concrete runtime interaction module whose weight view succeeds. -/
def mC3 : InteractionModule :=
  { skip_tp := fun nf _ => nf,
    linear_up := fun _ => { shape := [1, 2], data := [0, 0], dtype := Dtype.float32 },
    conv_tp_weights := fun _ => { shape := [1, 2], data := [0, 0], dtype := Dtype.float32 },
    tp_calculate_first_occurences := fun _ _ _ => [],
    tp_forward := fun _ _ _ _ _ _ => { shape := [1], data := [4], dtype := Dtype.float32 },
    linear := fun t => t,
    avg_num_neighbors := 2 }

/-- Concrete input tensor reused by the forward examples. -/
def tIn : Tensor := { shape := [1], data := [3], dtype := Dtype.float32 }

/-- Concrete edge index with one edge from node 0 to node 0. -/
def eiC3 : List (List Int) := [[0], [0]]

/-- Value of the Residual forward of `mC3` on the concrete inputs. -/
def resC3 : Tensor × Option Tensor :=
  (invariant_residual_interaction_forward mC3 tIn tIn tIn tIn eiC3).getD (tDefault, none)

/-- Value of the Standard forward of `mC3` on the concrete inputs. -/
def resC3std : Tensor × Option Tensor :=
  (invariant_interaction_forward mC3 tIn tIn tIn tIn eiC3).getD (tDefault, none)

/-- A concrete runtime interaction module for the pipeline claim: three
edges, two channels, six weight entries. -/
def mC4 : InteractionModule :=
  { skip_tp := fun nf _ => nf,
    linear_up := fun _ => { shape := [1, 2], data := [5, 5], dtype := Dtype.float32 },
    conv_tp_weights := fun _ => { shape := [3, 2], data := [0, 0, 0, 0, 0, 0], dtype := Dtype.float32 },
    tp_calculate_first_occurences := fun _ _ _ => [],
    tp_forward := fun _ _ _ _ _ _ => { shape := [1], data := [4], dtype := Dtype.float32 },
    linear := fun t => t,
    avg_num_neighbors := 2 }

/-- Concrete edge index with three edges for the pipeline example. -/
def eiC4 : List (List Int) := [[0, 1, 2], [0, 0, 0]]

/-- The viewed per-edge weight tensor of the pipeline example. -/
def wC4 : Tensor :=
  ((mC4.conv_tp_weights tIn).view3 ((mC4.conv_tp_weights tIn).shape.headD 0)
    ((mC4.linear_up tIn).shape.getLastD 0)).getD tDefault

/-- A linear layer whose weight count (1) differs from the declared
`1 * 2 = 2`: construction of `linear_matmul` from it must fail. -/
def lC5bad : LinearE3nn :=
  { irreps_in := [{ mul := 1, ir := 0 }], irreps_out := [{ mul := 2, ir := 0 }],
    instructions := 0, weight := [1] }

/-- A linear layer with matching weight count `1 * 2 = 2`. -/
def lC5good : LinearE3nn :=
  { irreps_in := [{ mul := 1, ir := 0 }], irreps_out := [{ mul := 2, ir := 0 }],
    instructions := 0, weight := [1, 2] }

/-- The `linear_matmul` built from `lC5good`. -/
def LC5 : linear_matmul :=
  (linear_matmul.init sqEx lC5good).getD { weights := [] }

/-- A concrete weight tensor for the contraction examples. -/
def tW : Tensor := { shape := [1], data := [3], dtype := Dtype.float32 }

/-- A concrete contraction with two lower-order weight tensors. -/
def cC6 : ContractionWeights :=
  { weights_max := tW, weights := [{ tW with data := [7] }, { tW with data := [9] }] }

/-- A concrete original symmetric-contraction layer. -/
def scC6 : SymmetricContractionsOrig :=
  { contractions := [cC6], irreps_in := [{ mul := 2, ir := 1 }], irreps_out := [{ mul := 1, ir := 0 }] }

/-- A standard (non-residual) interaction block with generic slots. -/
def ibC6 : InteractionBlockS :=
  { className := ("RealAgnosticInteractionBlock").toList,
    linear_up := LinearSlot.e3nn lTiny, linear := LinearSlot.e3nn lTiny,
    tp := TPSlot.orig 0, skip_tp := 9, forwardBinding := none }

/-- A product block with generic slots. -/
def pbC6 : ProductBlock :=
  { symmetric_contractions := ContractionSlot.orig scC6, linear := LinearSlot.e3nn lTiny }

/-- A concrete one-layer model with one unfrozen parameter. -/
def mC6 : MACEModel :=
  { objId := 7, params := [{ requires_grad := true, dtype := Dtype.float32 }],
    num_interactions := 1, node_embedding_num_irreps := 4,
    spherical_harmonics := { sh_lmax := 2, normalize := false, normalization := [], backend := [] },
    interactions := [ibC6], products := [pbC6] }

/-- The model `mC6` after `optimize_cuda_mace`. -/
def mC6opt : MACEModel :=
  (optimize_cuda_mace sqEx mC6).getD mC6

/-- The product block `pbC6` after the rewrite, with dtype float64. -/
def pC9R : ProductBlock :=
  (rewriteProduct Dtype.float64 sqEx pbC6).getD pbC6

/-- The contraction configuration installed in `pC9R`. -/
def cfgC9 : CUDAContraction :=
  match pC9R.symmetric_contractions with
  | ContractionSlot.wrapper c => c
  | ContractionSlot.orig _ =>
    { coupling_irreps := [], irreps_out := [], all_weights := [],
      nthreadX := 0, nthreadY := 0, nthreadZ := 0, dtype := Dtype.float32 }

/-- A contraction wrapper whose kernel returns shape `[1, 3, 1]`: one node,
three channels, a trailing singleton. -/
def wC10 : SymmetricContractionWrapper :=
  { symmetric_contractions := fun _ _ =>
      { shape := [1, 3, 1], data := [0, 0, 0], dtype := Dtype.float32 } }

/-- Flattening the row decomposition of a list of matching length gives the
list back. -/
theorem chunkRows_flatten (c : Nat) :
    ∀ (r : Nat) (l : List ℚ), l.length = r * c → (chunkRows c r l).flatten = l := by
  intro r
  induction r with
  | zero =>
    intro l h
    simp only [Nat.zero_mul] at h
    simp [chunkRows, List.length_eq_zero.mp h]
  | succ k ih =>
    intro l h
    simp only [chunkRows, List.flatten_cons]
    rw [ih (l.drop c) (by rw [List.length_drop, h, Nat.succ_mul]; omega)]
    exact List.take_append_drop c l

/-- C1: for a Linear Replacer built from a generic linear layer with input
multiplicity c_in, output multiplicity c_out and weight W, the forward on any
input of shape [batch, c_in] returns exactly the matrix product of the input
with W reshaped to [c_in, c_out] and divided by the square-root normalizer
(the statement holds for every value `sq c_in` of that normalizer). -/
theorem linear_matmul_forward_exact (sq : Nat → ℚ) (l : LinearE3nn) (L : linear_matmul)
    (W : List (List ℚ)) (x : List (List ℚ))
    (hx : ∀ row ∈ x, row.length = irrepsNumIrreps l.irreps_in)
    (hW : reshape2 l.weight (irrepsNumIrreps l.irreps_in) (irrepsNumIrreps l.irreps_out) = some W)
    (h : linear_matmul.init sq l = some L) :
    linear_matmul.forward L x =
      matmul x (W.map (fun row => row.map (fun a => a / sq (irrepsNumIrreps l.irreps_in)))) := by
  simp only [linear_matmul.init] at h
  rw [hW] at h
  simp only [Option.map_some'] at h
  cases h
  rfl

/-- Witness for C1 at a concrete 2-by-3 layer and a one-row batch. -/
theorem linear_matmul_forward_exact_witness :
    linear_matmul.forward LC1 xC1 =
      matmul xC1 (WC1.map (fun row => row.map (fun a => a / sqEx 2))) :=
  linear_matmul_forward_exact sqEx lC1 LC1 WC1 xC1 (by decide) rfl rfl

/-- C2 counterexample: the wrapper forward does not remove only a trailing
singleton dimension; on a kernel result of shape [1, 2] it removes the
leading singleton as well, so the claim as stated fails here. -/
theorem scw_forward_trailing_only_false :
    ¬ (SymmetricContractionWrapper.forward scwC2 xC2 yC2 =
      { shape := removeTrailingSingleton ((scwC2.symmetric_contractions xC2
          (yC2.map (fun row => int32 (Int.ofNat (argmaxLast row))))).shape),
        data := (scwC2.symmetric_contractions xC2
          (yC2.map (fun row => int32 (Int.ofNat (argmaxLast row))))).data,
        dtype := (scwC2.symmetric_contractions xC2
          (yC2.map (fun row => int32 (Int.ofNat (argmaxLast row))))).dtype }) := by
  decide

/-- C2 amended: the forward converts y to an integer type index by first
occurrence arg-max along the last axis, invokes the contraction kernel with
that per-node selector, and removes every size-1 dimension of the result
(trailing or not), keeping data and dtype. -/
theorem scw_forward_squeezes_all_singletons (w : SymmetricContractionWrapper)
    (x : Tensor) (y : List (List ℚ)) :
    SymmetricContractionWrapper.forward w x y =
      { shape := ((w.symmetric_contractions x
          (y.map (fun row => int32 (Int.ofNat (argmaxLast row))))).shape).filter (fun d => d != 1),
        data := (w.symmetric_contractions x
          (y.map (fun row => int32 (Int.ofNat (argmaxLast row))))).data,
        dtype := (w.symmetric_contractions x
          (y.map (fun row => int32 (Int.ofNat (argmaxLast row))))).dtype } := rfl

/-- C5: building a Linear Replacer from a layer whose weight element count
differs from c_in * c_out fails during construction, and on success every
weight element is used exactly once in order, so nothing is truncated or
padded. -/
theorem linear_matmul_init_fail_fast (sq : Nat → ℚ) (l : LinearE3nn) :
    (l.weight.length ≠ irrepsNumIrreps l.irreps_in * irrepsNumIrreps l.irreps_out →
      linear_matmul.init sq l = none) ∧
    (∀ L, linear_matmul.init sq l = some L →
      L.weights.flatten = l.weight.map (fun a => a / sq (irrepsNumIrreps l.irreps_in))) := by
  constructor
  · intro hne
    simp only [linear_matmul.init, reshape2]
    rw [if_neg hne]
    rfl
  · intro L h
    simp only [linear_matmul.init, reshape2] at h
    by_cases hlen : l.weight.length = irrepsNumIrreps l.irreps_in * irrepsNumIrreps l.irreps_out
    · rw [if_pos hlen] at h
      simp only [Option.map_some'] at h
      cases h
      rw [← List.map_flatten, chunkRows_flatten _ _ _ hlen]
    · rw [if_neg hlen] at h
      simp at h

/-- Witness for C5: a mismatched layer is rejected; a matching one keeps all
its weight entries in order. -/
theorem linear_matmul_init_fail_fast_witness :
    linear_matmul.init sqEx lC5bad = none ∧
    LC5.weights.flatten = lC5good.weight.map (fun a => a / sqEx 1) :=
  ⟨(linear_matmul_init_fail_fast sqEx lC5bad).1 (by decide),
   (linear_matmul_init_fail_fast sqEx lC5good).2 LC5 rfl⟩

/-- C7 counterexample: for the bare input filename model.pt the driver writes
to the filesystem root, not into the directory containing the input. -/
theorem model_opt_path_bare_filename_escapes :
    model_opt_path (("model.pt").toList) (("opt.pt").toList) ≠
      specOutputPath (("model.pt").toList) (("opt.pt").toList) := by
  decide

/-- C7 amended: when the input path contains at least one slash, the output
path is the input directory joined with the output filename; for a bare
filename (no slash) it is a slash followed by the output filename, that is a
path at the filesystem root rather than in the directory of the input. -/
theorem model_opt_path_directory_join (model output : List Char) :
    (2 ≤ (splitOnSlash model).length →
      model_opt_path model output = specOutputPath model output) ∧
    ((splitOnSlash model).length ≤ 1 →
      model_opt_path model output = '/' :: output) := by
  constructor
  · intro h
    unfold specOutputPath
    rw [if_neg (by omega)]
    rfl
  · intro h
    unfold model_opt_path
    have hdrop : (splitOnSlash model).dropLast = [] := by
      cases hp : splitOnSlash model with
      | nil => rfl
      | cons x t =>
        cases t with
        | nil => rfl
        | cons y r => rw [hp] at h; simp at h
    rw [hdrop]
    rfl

/-- Witness for C7 amended: one path with a directory, one bare filename. -/
theorem model_opt_path_directory_join_witness :
    model_opt_path (("a/b.pt").toList) (("o.pt").toList) =
      specOutputPath (("a/b.pt").toList) (("o.pt").toList) ∧
    model_opt_path (("b.pt").toList) (("o.pt").toList) = '/' :: ("o.pt").toList :=
  ⟨(model_opt_path_directory_join (("a/b.pt").toList) (("o.pt").toList)).1 (by decide),
   (model_opt_path_directory_join (("b.pt").toList) (("o.pt").toList)).2 (by decide)⟩

/-- C8: when the benchmark input cannot be read, the harness logs the failure
and substitutes a cubic diamond carbon cell (a = 3.567) replicated 10x10x10,
then proceeds; a readable input passes through untouched with no log. -/
theorem benchmark_fallback_synthetic (file err : List Char) (atoms : List Atoms) :
    benchmarkLoadAtoms (Except.error err) file =
      ([Atoms.repeat_ (Atoms.bulk (("C").toList) (("diamond").toList) (3567 / 1000) true) 10 10 10],
       [("Could not read file ").toList ++ file]) ∧
    benchmarkLoadAtoms (Except.ok atoms) file = (atoms, []) :=
  ⟨rfl, rfl⟩

/-- C10: when the contraction kernel output has shape [n, c, 1], the wrapper
removes the trailing singleton, and when n = 1 (a single node) it removes the
node dimension as well, so the output rank differs from the multi-node case. -/
theorem scw_forward_squeezes_node_dim (w : SymmetricContractionWrapper) (x : Tensor)
    (y : List (List ℚ)) (n c : Nat)
    (h : (w.symmetric_contractions x
        (y.map (fun row => int32 (Int.ofNat (argmaxLast row))))).shape = [n, c, 1])
    (hc : c ≠ 1) :
    (SymmetricContractionWrapper.forward w x y).shape = if n = 1 then [c] else [n, c] := by
  unfold SymmetricContractionWrapper.forward
  simp only
  rw [h]
  have hc' : (c != 1) = true := by simpa using hc
  by_cases hn : n = 1
  · subst hn
    simp [squeezeShape, hc']
  · have hn' : (n != 1) = true := by simpa using hn
    simp [squeezeShape, hn', hc', hn]

/-- Witness for C10: a one-node kernel output of shape [1, 3, 1] squeezes to
shape [3]. -/
theorem scw_forward_squeezes_node_dim_witness :
    (SymmetricContractionWrapper.forward wC10 xC2 yC2).shape = if 1 = 1 then [3] else [1, 3] :=
  scw_forward_squeezes_node_dim wC10 xC2 yC2 1 3 (by decide) (by decide)

/-- C3: the rewriter binds the Residual forward exactly when the class name
of the block contains the marker Residual, and the Standard forward
otherwise; the self-tensor-product slot is left untouched by the rewrite;
the Residual forward returns a non-null self connection computed by applying
the skip tensor product to the incoming (pre-uplift) node features, while
the Standard forward returns none for that component. -/
theorem interaction_rewrite_residual_dispatch (sq : Nat → ℚ) (b b2 : InteractionBlockS)
    (h : rewriteInteraction sq b = some b2) :
    (b2.forwardBinding = some ForwardKind.residual ↔
      containsSubL residualMarker b.className = true) ∧
    (containsSubL residualMarker b.className = false →
      b2.forwardBinding = some ForwardKind.standard) ∧
    b2.skip_tp = b.skip_tp ∧
    (∀ (m : InteractionModule) (na nf ea ef : Tensor) (ei : List (List Int))
        (msg : Tensor) (sc : Option Tensor),
      invariant_residual_interaction_forward m na nf ea ef ei = some (msg, sc) →
      sc = some (m.skip_tp nf na)) ∧
    (∀ (m : InteractionModule) (na nf ea ef : Tensor) (ei : List (List Int))
        (msg : Tensor) (sc : Option Tensor),
      invariant_interaction_forward m na nf ea ef ei = some (msg, sc) → sc = none) := by
  have hb : b2.forwardBinding = some (selectForwardKind b.className) ∧
      b2.skip_tp = b.skip_tp := by
    unfold rewriteInteraction at h
    split at h
    case _ lu =>
      split at h
      case _ => simp at h
      case _ lm =>
        split at h
        case _ l2 =>
          simp only [Option.some.injEq] at h
          subst h
          exact ⟨rfl, rfl⟩
        case _ => simp at h
    case _ => simp at h
  refine ⟨?_, ?_, hb.2, ?_, ?_⟩
  · rw [hb.1]
    unfold selectForwardKind
    cases hcb : containsSubL residualMarker b.className
    · decide
    · decide
  · intro hfalse
    rw [hb.1]
    unfold selectForwardKind
    rw [hfalse]
    rfl
  · intro m na nf ea ef ei msg sc hfwd
    simp only [invariant_residual_interaction_forward] at hfwd
    split at hfwd
    · simp at hfwd
    · simp only [Option.some.injEq, Prod.mk.injEq] at hfwd
      exact hfwd.2.symm
  · intro m na nf ea ef ei msg sc hfwd
    simp only [invariant_interaction_forward] at hfwd
    split at hfwd
    · simp at hfwd
    · simp only [Option.some.injEq, Prod.mk.injEq] at hfwd
      exact hfwd.2.symm

/-- Witness for C3: a residual-named block gets the Residual binding with its
skip module untouched; on concrete inputs the Residual forward returns the
skip product of the pre-uplift node features and the Standard forward
returns none. -/
theorem interaction_rewrite_residual_dispatch_witness :
    bC3R.forwardBinding = some ForwardKind.residual ∧
    bC3R.skip_tp = bC3.skip_tp ∧
    resC3.2 = some (mC3.skip_tp tIn tIn) ∧
    resC3std.2 = none := by
  have hmain := interaction_rewrite_residual_dispatch sqEx bC3 bC3R rfl
  exact ⟨hmain.1.mpr (by decide), hmain.2.2.1,
    hmain.2.2.2.1 mC3 tIn tIn tIn tIn eiC3 resC3.1 resC3.2 rfl,
    hmain.2.2.2.2 mC3 tIn tIn tIn tIn eiC3 resC3std.1 resC3std.2 rfl⟩

/-- C4: both rewritten forward variants cast the sender and receiver rows of
the edge index to 32-bit integers, compute the first-occurrence bucket
offsets once and pass that single value to the tensor-product primitive,
pass the per-edge weights viewed as [num_edges, -1, channels], and divide
the message by the precomputed avg_num_neighbors attribute; the Standard
variant pairs the message with none and the Residual variant with the skip
connection. -/
theorem interaction_forwards_cast_view_normalize
    (m : InteractionModule) (na nf ea ef : Tensor) (ei : List (List Int)) (w : Tensor)
    (hview : Tensor.view3 (m.conv_tp_weights ef) ((m.conv_tp_weights ef).shape.headD 0)
      ((m.linear_up nf).shape.getLastD 0) = some w)
    (hE : (m.conv_tp_weights ef).shape.headD 0 = (ei.getD 0 []).length) :
    invariant_interaction_forward m na nf ea ef ei =
      some ((m.linear (m.tp_forward (m.linear_up nf) ea w
          ((ei.getD 0 []).map int32) ((ei.getD 1 []).map int32)
          (m.tp_calculate_first_occurences ((ei.getD 1 []).map int32)
            (nf.shape.headD 0) []))).divScalar m.avg_num_neighbors, none) ∧
    invariant_residual_interaction_forward m na nf ea ef ei =
      some ((m.linear (m.tp_forward (m.linear_up nf) ea w
          ((ei.getD 0 []).map int32) ((ei.getD 1 []).map int32)
          (m.tp_calculate_first_occurences ((ei.getD 1 []).map int32)
            (nf.shape.headD 0) []))).divScalar m.avg_num_neighbors,
        some (m.skip_tp nf na)) ∧
    w.shape = [(ei.getD 0 []).length,
      (m.conv_tp_weights ef).data.length /
        ((ei.getD 0 []).length * (m.linear_up nf).shape.getLastD 0),
      (m.linear_up nf).shape.getLastD 0] := by
  refine ⟨?_, ?_, ?_⟩
  · simp only [invariant_interaction_forward]
    rw [hview]
  · simp only [invariant_residual_interaction_forward]
    rw [hview]
  · unfold Tensor.view3 at hview
    split at hview
    · simp only [Option.some.injEq] at hview
      subst hview
      rw [← hE]
    · simp at hview

/-- Witness for C4 at a concrete module with three edges and two channels:
the Standard forward equals the spelled-out pipeline and the viewed weight
tensor has shape [3, 1, 2]. -/
theorem interaction_forwards_cast_view_normalize_witness :
    invariant_interaction_forward mC4 tIn tIn tIn tIn eiC4 =
      some ((mC4.linear (mC4.tp_forward (mC4.linear_up tIn) tIn wC4
          ((eiC4.getD 0 []).map int32) ((eiC4.getD 1 []).map int32)
          (mC4.tp_calculate_first_occurences ((eiC4.getD 1 []).map int32)
            (tIn.shape.headD 0) []))).divScalar mC4.avg_num_neighbors, none) ∧
    wC4.shape = [3, 1, 2] := by
  have hmain := interaction_forwards_cast_view_normalize mC4 tIn tIn tIn tIn eiC4 wC4 rfl (by decide)
  exact ⟨hmain.1, hmain.2.2⟩

/-- Looking up index j in a successful weight extraction gives the per-order
assignment of the contraction at index j. -/
theorem extractAllWeights_get (d : Dtype) :
    ∀ (cs : List ContractionWeights) (res : List (List (Nat × Tensor))),
      extractAllWeights d cs = some res →
      ∀ (j : Nat) (c : ContractionWeights), cs[j]? = some c →
        res[j]? = extractContraction d c := by
  intro cs
  induction cs with
  | nil =>
    intro res h j c hj
    simp at hj
  | cons a as ih =>
    intro res h j c hj
    simp only [extractAllWeights] at h
    split at h
    · simp at h
    next e he =>
      split at h
      · simp at h
      next es hes =>
        simp only [Option.some.injEq] at h
        subst h
        cases j with
        | zero =>
          simp only [List.getElem?_cons_zero, Option.some.injEq] at hj
          subst hj
          simp only [List.getElem?_cons_zero]
          exact he.symm
        | succ k =>
          simp only [List.getElem?_cons_succ] at hj ⊢
          exact ih es hes k c hj

/-- C9: in the rewritten product block, the extracted mapping at every
contraction index assigns body order 3 to weights_max, order 2 to the weight
at list index 0, order 1 to the weight at list index 1, each cast to the
model dtype; the casts keep the data, so the source tensors are unchanged. -/
theorem rewrite_product_weight_order (sq : Nat → ℚ) (d : Dtype) (p p2 : ProductBlock)
    (sc : SymmetricContractionsOrig) (cfg : CUDAContraction)
    (hsc : p.symmetric_contractions = ContractionSlot.orig sc)
    (h : rewriteProduct d sq p = some p2)
    (hcfg : p2.symmetric_contractions = ContractionSlot.wrapper cfg)
    (j : Nat) (c : ContractionWeights) (w0 w1 : Tensor)
    (hj : sc.contractions[j]? = some c)
    (h0 : c.weights[0]? = some w0) (h1 : c.weights[1]? = some w1) :
    cfg.all_weights[j]? =
      some [(3, c.weights_max.typeCast d), (2, w0.typeCast d), (1, w1.typeCast d)] ∧
    (c.weights_max.typeCast d).data = c.weights_max.data ∧
    (w0.typeCast d).data = w0.data ∧ (w1.typeCast d).data = w1.data := by
  unfold rewriteProduct at h
  split at h
  next sc2 hsc2 =>
    rw [hsc] at hsc2
    simp only [ContractionSlot.orig.injEq] at hsc2
    subst hsc2
    split at h
    · simp at h
    next aw haw =>
      split at h
      next l hl =>
        split at h
        · simp at h
        next lm hlm =>
          simp only [Option.some.injEq] at h
          subst h
          simp only [ContractionSlot.wrapper.injEq] at hcfg
          subst hcfg
          refine ⟨?_, rfl, rfl, rfl⟩
          rw [extractAllWeights_get d sc.contractions aw haw j c hj]
          unfold extractContraction
          rw [h0, h1]
      next => simp at h
  next => simp at h

/-- Witness for C9 at the concrete product block with one contraction. -/
theorem rewrite_product_weight_order_witness :
    cfgC9.all_weights[0]? =
      some [(3, cC6.weights_max.typeCast Dtype.float64),
            (2, Tensor.typeCast { tW with data := [7] } Dtype.float64),
            (1, Tensor.typeCast { tW with data := [9] } Dtype.float64)] ∧
    (cC6.weights_max.typeCast Dtype.float64).data = cC6.weights_max.data := by
  have hmain := rewrite_product_weight_order sqEx Dtype.float64 pbC6 pC9R scC6 cfgC9
    rfl rfl rfl 0 cC6 { tW with data := [7] } { tW with data := [9] } rfl rfl rfl
  exact ⟨hmain.1, hmain.2.1⟩

/-- The rewrite loop over a concatenation runs the first segment and then the
second from its result. -/
theorem rewriteLoop_append (sq : Nat → ℚ) (d : Dtype) :
    ∀ (l1 l2 : List Nat) (m : MACEModel),
      rewriteLoop sq d m (l1 ++ l2) =
        match rewriteLoop sq d m l1 with
        | none => none
        | some mid => rewriteLoop sq d mid l2 := by
  intro l1
  induction l1 with
  | nil => intro l2 m; rfl
  | cons i rest ih =>
    intro l2 m
    simp only [List.cons_append, rewriteLoop]
    cases hstep : layerStep sq d m i with
    | none => rfl
    | some m2 => exact ih l2 m2

/-- One loop iteration touches only the two layer lists, setting index i, and
leaves the identity, parameters and layer count unchanged. -/
theorem layerStep_spec (sq : Nat → ℚ) (d : Dtype) (acc acc2 : MACEModel) (i : Nat)
    (h : layerStep sq d acc i = some acc2) :
    acc2.objId = acc.objId ∧ acc2.params = acc.params ∧
    acc2.num_interactions = acc.num_interactions ∧
    acc2.interactions.length = acc.interactions.length ∧
    ∃ ib ib2, acc.interactions[i]? = some ib ∧ rewriteInteraction sq ib = some ib2 ∧
      acc2.interactions = acc.interactions.set i ib2 := by
  unfold layerStep at h
  split at h
  · simp at h
  next ib hib =>
    split at h
    · simp at h
    next ib2 hib2 =>
      split at h
      · simp at h
      next pb hpb =>
        split at h
        · simp at h
        next pb2 hpb2 =>
          simp only [Option.some.injEq] at h
          subst h
          exact ⟨rfl, rfl, rfl, by simp, ib, ib2, hib, hib2, rfl⟩

/-- Running the loop over `range n`: identity, parameters and counts are
preserved, indices at or beyond n are untouched, and every index below n
holds the rewrite of the corresponding original block. -/
theorem rewriteLoop_range_spec (sq : Nat → ℚ) (d : Dtype) (m : MACEModel) :
    ∀ (n : Nat) (res : MACEModel),
      rewriteLoop sq d m (List.range n) = some res →
      res.objId = m.objId ∧ res.params = m.params ∧
      res.num_interactions = m.num_interactions ∧
      res.interactions.length = m.interactions.length ∧
      (∀ j, n ≤ j → res.interactions[j]? = m.interactions[j]?) ∧
      (∀ i, i < n → ∀ ib, m.interactions[i]? = some ib →
        res.interactions[i]? = rewriteInteraction sq ib) := by
  intro n
  induction n with
  | zero =>
    intro res h
    simp only [List.range_zero, rewriteLoop, Option.some.injEq] at h
    subst h
    exact ⟨rfl, rfl, rfl, rfl, fun j _ => rfl, fun i hi => absurd hi (by omega)⟩
  | succ k ih =>
    intro res h
    rw [List.range_succ, rewriteLoop_append] at h
    split at h
    · simp at h
    next mid hmid =>
      have hstep : layerStep sq d mid k = some res := by
        simp only [rewriteLoop] at h
        cases hls : layerStep sq d mid k with
        | none => rw [hls] at h; simp at h
        | some m2 =>
          rw [hls] at h
          have hmr : m2 = res := by simpa using h
          exact hmr ▸ rfl
      obtain ⟨ho, hp, hn, hl, hge, hlt⟩ := ih mid hmid
      obtain ⟨so, sp, sn, sl, ib, ib2, hib, hib2, hset⟩ := layerStep_spec sq d mid res k hstep
      have hklen : k < mid.interactions.length := (List.getElem?_eq_some.mp hib).1
      refine ⟨so.trans ho, sp.trans hp, sn.trans hn, ?_, ?_, ?_⟩
      · rw [hset, List.length_set]
        exact hl
      · intro j hj
        rw [hset, List.getElem?_set_ne (by omega)]
        exact hge j (by omega)
      · intro i hi ib0 hib0
        by_cases hik : i = k
        · subst hik
          have hmk : mid.interactions[i]? = some ib0 := by
            rw [hge i (le_refl i)]
            exact hib0
          have hbb : ib = ib0 := by
            rw [hib] at hmk
            simpa using hmk
          rw [hset, List.getElem?_set_self hklen, ← hbb, hib2]
        · rw [hset, List.getElem?_set_ne (by omega)]
          exact hlt i (by omega) ib0 hib0

/-- C6: on success, optimize_cuda_mace has frozen every parameter of the
model before any replacement (the freeze is the first step and the loop
preserves the parameter list), returns a model with the same object identity,
and has applied the per-layer rewrite to every one of the num_interactions
interaction layers. -/
theorem optimize_cuda_mace_freezes_and_preserves (sq : Nat → ℚ) (m m2 : MACEModel)
    (h : optimize_cuda_mace sq m = some m2) :
    m2.objId = m.objId ∧
    (∀ p ∈ m2.params, p.requires_grad = false) ∧
    m2.num_interactions = m.num_interactions ∧
    optimize_cuda_mace sq m = optimizeFrozen sq (freezeParams m) ∧
    (∀ i, i < m.num_interactions → ∀ ib, m.interactions[i]? = some ib →
      m2.interactions[i]? = rewriteInteraction sq ib) := by
  have hof : optimizeFrozen sq (freezeParams m) = some m2 := h
  simp only [optimizeFrozen] at hof
  split at hof
  · simp at hof
  next dtype hdt =>
    obtain ⟨ho, hp, hn, _, _, hlt⟩ := rewriteLoop_range_spec sq dtype _ _ m2 hof
    have hp2 : m2.params = m.params.map (fun p => { p with requires_grad := false }) := hp
    refine ⟨ho, ?_, hn, rfl, ?_⟩
    · intro p hpmem
      rw [hp2] at hpmem
      obtain ⟨q, _, hq⟩ := List.mem_map.mp hpmem
      rw [← hq]
    · intro i hi ib hib
      exact hlt i hi ib hib

/-- Witness for C6: the concrete one-layer model keeps its identity, its
parameter is frozen, and its single interaction layer holds the rewrite of
the original block. -/
theorem optimize_cuda_mace_freezes_and_preserves_witness :
    mC6opt.objId = mC6.objId ∧
    (mC6opt.params.getD 0 { requires_grad := true, dtype := Dtype.float32 }).requires_grad = false ∧
    mC6opt.interactions[0]? = rewriteInteraction sqEx ibC6 := by
  have hmain := optimize_cuda_mace_freezes_and_preserves sqEx mC6 mC6opt rfl
  exact ⟨hmain.1,
    hmain.2.1 (mC6opt.params.getD 0 { requires_grad := true, dtype := Dtype.float32 }) (by decide),
    hmain.2.2.2.2 0 (by decide) ibC6 rfl⟩
